import Mathlib

/-!
# Circular blob store façade and S3 key prefixing

A shallow embedding of `pkg/blobstore/circular/circular_blob_access.go` and of
`prefixedKeyer` from `pkg/blobstore/s3_blob_access.go`.

* The three stores behind the façade are Go interfaces.  They are embedded as
  records of functions over an abstract store state; a method that can change
  its store returns the new state, a query (`GetCursors`, `OffsetStore.Get`,
  `DataStore.Get`) is a function of the state.
* An `io.Reader` is embedded by the bytes it yields and the error that ends
  them; the lazy reader handed out by `DataStore.Get` stands for what it yields
  when it is read at once, in the state in which it was made.
* Every façade operation returns, next to its Go results, the list of store
  calls it made, in order, so that "does not call" properties can be stated.
* `ba.lock` is not embedded: the model is sequential, one operation at a time.
* `uint64` and `int64` values are `Nat` and `Int`; the one `uint64` addition of
  the façade (`offset += uint64(off)`) is taken modulo `2 ^ 64`.
-/

namespace Buildbarn

/-! ## Go values -/

/-- One byte of blob content. -/
abbrev Byte := UInt8

/-- The gRPC status codes that the façade itself produces. -/
inductive Code
  | NotFound
  | InvalidArgument
  deriving DecidableEq, Repr

/-- Go `error` values: `status.Errorf(code, msg)`, the sentinels `io.EOF` and
`io.ErrUnexpectedEOF`, `errors.New(msg)`, and any other error a store may
return, told apart by a number. -/
inductive GoError
  | status (code : Code) (msg : String)
  | EOF
  | ErrUnexpectedEOF
  | errorsNew (msg : String)
  | storeError (id : Nat)
  deriving DecidableEq, Repr

/-- An `io.Reader` over a finite stream: the bytes it still yields and the
error it reports once they are used up (`io.EOF` for an ordinary stream). -/
structure Reader where
  data : List Byte
  fail : GoError
  deriving DecidableEq, Repr

/-- An `io.ReadCloser`: a reader together with the number of times `Close`
has been called on it. -/
structure ReadCloser where
  reader : Reader
  closed : Nat
  deriving DecidableEq, Repr

/-- Go's `io.ReadFull(r, b)`: fills `b` from `r`.  Returns the buffer, the
number of bytes copied and the error: none when the buffer was filled (also
when it is empty), otherwise the reader's error, with `io.EOF` turned into
`io.ErrUnexpectedEOF` when some bytes but not all were read. -/
def ReadFull (r : Reader) (b : List Byte) : List Byte × Nat × Option GoError :=
  let n := min b.length r.data.length
  let b' := r.data.take n ++ b.drop n
  if n ≥ b.length then (b', n, none)
  else if n > 0 ∧ r.fail = GoError.EOF then (b', n, some GoError.ErrUnexpectedEOF)
  else (b', n, some r.fail)

/-! ## The store interfaces -/

/-- Modelled from the spec: the type `Cursors` is declared outside the given
sources; the spec describes it as the pair `(read, write)` of 64-bit
counters. -/
structure Cursors where
  Read : Nat
  Write : Nat
  deriving DecidableEq, Repr

/-- Modelled from the spec: the method `Cursors.Contains` is declared outside
the given sources; this is the spec's liveness predicate
`read ≤ offset ∧ offset + length ≤ write`. -/
def Cursors.Contains (c : Cursors) (offset : Nat) (length : Int) : Bool :=
  decide (c.Read ≤ offset ∧ (offset : Int) + length ≤ (c.Write : Int))

/-- Interface `OffsetStore` over a store state `ω`.  `Get` returns
`(offset, length, ok, err)`. -/
structure OffsetStore (δ ω : Type) where
  Get : ω → δ → Cursors → Nat × Int × Bool × Option GoError
  Put : ω → δ → Nat → Int → Cursors → Option GoError × ω

/-- Interface `DataStore` over a store state `κ`.  `Put` also returns what is
left of the reader it was given. -/
structure DataStore (κ : Type) where
  Put : κ → Reader → Nat → Option GoError × κ × Reader
  Get : κ → Nat → Int → Reader

/-- Interface `StateStore` over a store state `τ`.  `Allocate` returns
`(offset, err)`. -/
structure StateStore (τ : Type) where
  GetCursors : τ → Cursors
  Allocate : τ → Int → (Nat × Option GoError) × τ
  Invalidate : τ → Nat → Int → Option GoError × τ

/-- The struct `circularBlobAccess`: the three injected stores. -/
structure circularBlobAccess (δ ω κ τ : Type) where
  dataStore : DataStore κ
  offsetStore : OffsetStore δ ω
  stateStore : StateStore τ

/-- The contents of the three stores at one moment. -/
structure Files (ω κ τ : Type) where
  offsets : ω
  data : κ
  state : τ

/-- A call made by the façade on one of its stores. -/
inductive Call (δ : Type)
  | GetCursors
  | OffsetGet (digest : δ) (cursors : Cursors)
  | OffsetPut (digest : δ) (offset : Nat) (length : Int) (cursors : Cursors)
  | DataPut (offset : Nat)
  | DataGet (offset : Nat) (size : Int)
  | Allocate (sizeBytes : Int)
  | Invalidate (offset : Nat) (sizeBytes : Int)
  deriving DecidableEq, Repr

/-- The error of `status.Errorf(codes.NotFound, "Blob not found")`. -/
def errNotFound : GoError := GoError.status Code.NotFound "Blob not found"

/-- The error of
`status.Errorf(codes.InvalidArgument, "Cannot read at negative offset")`. -/
def errNegativeOffset : GoError :=
  GoError.status Code.InvalidArgument "Cannot read at negative offset"

/-- The error of `errors.New("Data became stale before write completed")`. -/
def errStale : GoError := GoError.errorsNew "Data became stale before write completed"

/-! ## The façade operations -/

/-- Result of `Get`: `(length, reader, err)` and the store calls made. -/
structure GetResult (δ : Type) where
  length : Int
  reader : Option Reader
  err : Option GoError
  calls : List (Call δ)

/-- The method `circularBlobAccess.Get`. -/
def circularBlobAccess.Get {δ ω κ τ : Type} (ba : circularBlobAccess δ ω κ τ)
    (s : Files ω κ τ) (digest : δ) : GetResult δ :=
  let cursors := ba.stateStore.GetCursors s.state
  match ba.offsetStore.Get s.offsets digest cursors with
  | (offset, length, ok, err) =>
    match err with
    | some e => ⟨0, none, some e, [Call.GetCursors, Call.OffsetGet digest cursors]⟩
    | none =>
      if ok then
        ⟨length, some (ba.dataStore.Get s.data offset length), none,
          [Call.GetCursors, Call.OffsetGet digest cursors, Call.DataGet offset length]⟩
      else
        ⟨0, none, some errNotFound, [Call.GetCursors, Call.OffsetGet digest cursors]⟩

/-- Result of `GetAndReadAt`: the buffer after the call, `(n, err)` and the
store calls made. -/
structure ReadAtResult (δ : Type) where
  buf : List Byte
  n : Nat
  err : Option GoError
  calls : List (Call δ)

/-- The method `circularBlobAccess.GetAndReadAt`. -/
def circularBlobAccess.GetAndReadAt {δ ω κ τ : Type} (ba : circularBlobAccess δ ω κ τ)
    (s : Files ω κ τ) (digest : δ) (b : List Byte) (off : Int) : ReadAtResult δ :=
  if off < 0 then
    ⟨b, 0, some errNegativeOffset, []⟩
  else
    let cursors := ba.stateStore.GetCursors s.state
    match ba.offsetStore.Get s.offsets digest cursors with
    | (offset, length, ok, err) =>
      match err with
      | some e => ⟨b, 0, some e, [Call.GetCursors, Call.OffsetGet digest cursors]⟩
      | none =>
        if ok then
          if length < off then
            ⟨b, 0, some GoError.EOF, [Call.GetCursors, Call.OffsetGet digest cursors]⟩
          else
            let offset := (offset + off.toNat) % 2 ^ 64
            let length := length - off
            match ReadFull (ba.dataStore.Get s.data offset length) b with
            | (b', n, err) =>
              let err := if err = some GoError.ErrUnexpectedEOF then some GoError.EOF else err
              ⟨b', n, err,
                [Call.GetCursors, Call.OffsetGet digest cursors, Call.DataGet offset length]⟩
        else
          ⟨b, 0, some errNotFound, [Call.GetCursors, Call.OffsetGet digest cursors]⟩

/-- Result of `Put`: the error, the stores and the reader afterwards, and the
store calls made. -/
structure PutResult (δ ω κ τ : Type) where
  err : Option GoError
  files : Files ω κ τ
  r : ReadCloser
  calls : List (Call δ)

/-- The method `circularBlobAccess.Put`.  The deferred `r.Close()` runs on
every return path. -/
def circularBlobAccess.Put {δ ω κ τ : Type} (ba : circularBlobAccess δ ω κ τ)
    (s : Files ω κ τ) (digest : δ) (sizeBytes : Int) (r : ReadCloser) : PutResult δ ω κ τ :=
  match ba.stateStore.Allocate s.state sizeBytes with
  | ((offset, err), state1) =>
    match err with
    | some e =>
      ⟨some e, ⟨s.offsets, s.data, state1⟩, ⟨r.reader, r.closed + 1⟩, [Call.Allocate sizeBytes]⟩
    | none =>
      match ba.dataStore.Put s.data r.reader offset with
      | (some e, data1, reader1) =>
        ⟨some e, ⟨s.offsets, data1, state1⟩, ⟨reader1, r.closed + 1⟩,
          [Call.Allocate sizeBytes, Call.DataPut offset]⟩
      | (none, data1, reader1) =>
        let cursors := ba.stateStore.GetCursors state1
        if cursors.Contains offset sizeBytes then
          match ba.offsetStore.Put s.offsets digest offset sizeBytes cursors with
          | (err, offsets1) =>
            ⟨err, ⟨offsets1, data1, state1⟩, ⟨reader1, r.closed + 1⟩,
              [Call.Allocate sizeBytes, Call.DataPut offset, Call.GetCursors,
                Call.OffsetPut digest offset sizeBytes cursors]⟩
        else
          ⟨some errStale, ⟨s.offsets, data1, state1⟩, ⟨reader1, r.closed + 1⟩,
            [Call.Allocate sizeBytes, Call.DataPut offset, Call.GetCursors]⟩

/-- Result of `Delete`: the error, the stores afterwards and the store calls
made. -/
structure DeleteResult (δ ω κ τ : Type) where
  err : Option GoError
  files : Files ω κ τ
  calls : List (Call δ)

/-- The method `circularBlobAccess.Delete`. -/
def circularBlobAccess.Delete {δ ω κ τ : Type} (ba : circularBlobAccess δ ω κ τ)
    (s : Files ω κ τ) (digest : δ) : DeleteResult δ ω κ τ :=
  let cursors := ba.stateStore.GetCursors s.state
  match ba.offsetStore.Get s.offsets digest cursors with
  | (offset, length, ok, err) =>
    match err with
    | some e => ⟨some e, s, [Call.GetCursors, Call.OffsetGet digest cursors]⟩
    | none =>
      if ok then
        match ba.stateStore.Invalidate s.state offset length with
        | (err, state1) =>
          ⟨err, ⟨s.offsets, s.data, state1⟩,
            [Call.GetCursors, Call.OffsetGet digest cursors, Call.Invalidate offset length]⟩
      else
        ⟨none, s, [Call.GetCursors, Call.OffsetGet digest cursors]⟩

/-- Result of `FindMissing`: `(missingDigests, err)` and the store calls made;
a nil slice is the empty list. -/
structure FindMissingResult (δ : Type) where
  missing : List δ
  err : Option GoError
  calls : List (Call δ)

/-- The `for` loop of `circularBlobAccess.FindMissing`, run on the digests that
are left, with `missingDigests` and the calls made so far. -/
def circularBlobAccess.findMissingLoop {δ ω κ τ : Type} (ba : circularBlobAccess δ ω κ τ)
    (s : Files ω κ τ) (cursors : Cursors) :
    List δ → List δ → List (Call δ) → FindMissingResult δ
  | [], missingDigests, calls => ⟨missingDigests, none, calls⟩
  | digest :: digests, missingDigests, calls =>
    match ba.offsetStore.Get s.offsets digest cursors with
    | (_, _, ok, err) =>
      match err with
      | some e => ⟨[], some e, calls ++ [Call.OffsetGet digest cursors]⟩
      | none =>
        if !ok then
          circularBlobAccess.findMissingLoop ba s cursors digests (missingDigests ++ [digest])
            (calls ++ [Call.OffsetGet digest cursors])
        else
          circularBlobAccess.findMissingLoop ba s cursors digests missingDigests
            (calls ++ [Call.OffsetGet digest cursors])

/-- The method `circularBlobAccess.FindMissing`. -/
def circularBlobAccess.FindMissing {δ ω κ τ : Type} (ba : circularBlobAccess δ ω κ τ)
    (s : Files ω κ τ) (digests : List δ) : FindMissingResult δ :=
  let cursors := ba.stateStore.GetCursors s.state
  ba.findMissingLoop s cursors digests [] [Call.GetCursors]

/-! ## `prefixedKeyer` -/

/-- A Go `string`: a sequence of bytes. -/
abbrev GoString := List Byte

/-- The type `util.DigestKeyer`: from an instance name and a digest to
`(key, err)`. -/
abbrev DigestKeyer (δ : Type) := GoString → δ → GoString × Option GoError

/-- The byte `'/'`. -/
def slash : Byte := 47

/-- The function `prefixedKeyer` of `s3_blob_access.go`. -/
def prefixedKeyer {δ : Type} (keyPrefix : GoString) (underlyingKeyer : DigestKeyer δ) :
    DigestKeyer δ :=
  if keyPrefix.length = 0 then
    underlyingKeyer
  else
    let keyPrefix1 :=
      if keyPrefix.getD (keyPrefix.length - 1) 0 ≠ slash then keyPrefix ++ [slash] else keyPrefix
    fun inst digest =>
      match underlyingKeyer inst digest with
      | (key, none) => (keyPrefix1 ++ key, none)
      | (key, some err) => (key, some err)

/-! ## Reference stores

The store implementations are outside the given sources.  The stores below are
in-memory stand-ins written from the spec's description of the three stores
(§4.2 to §4.4); they serve as concrete stores on which the façade is run. -/

/-- Positioned write of a byte sequence into a byte array of capacity `C`, one
byte after the other: absolute offset `offset` lives at position
`offset mod C`. -/
def ringWrite (C : Nat) (bytes : Nat → Byte) (offset : Nat) : List Byte → Nat → Byte
  | [] => bytes
  | x :: xs => ringWrite C (Function.update bytes (offset % C) x) (offset + 1) xs

/-- Positioned read of `n` bytes from a byte array of capacity `C`. -/
def ringRead (C : Nat) (bytes : Nat → Byte) (offset : Nat) (n : Nat) : List Byte :=
  (List.range n).map (fun i => bytes ((offset + i) % C))

/-- Modelled from the spec: the DataStore implementation is missing; the spec
describes a byte array of fixed capacity `C`: `Put` copies the entire reader
stream to the positions derived from `offset` and fails only when the reader
does, `Get` returns a reader that produces exactly `size` bytes starting at
`offset`. -/
def memDataStore (C : Nat) : DataStore (Nat → Byte) where
  Put := fun bytes r offset =>
    if r.fail = GoError.EOF then (none, ringWrite C bytes offset r.data, ⟨[], r.fail⟩)
    else (some r.fail, ringWrite C bytes offset r.data, ⟨[], r.fail⟩)
  Get := fun bytes offset size => ⟨ringRead C bytes offset size.toNat, GoError.EOF⟩

/-- Modelled from the spec: the OffsetStore implementation is missing; `Get`
returns `present = false` if no entry exists or if the stored entry fails the
liveness predicate against the cursors, `Put` records the mapping. -/
def memOffsetStore {δ : Type} [DecidableEq δ] : OffsetStore δ (List (δ × Nat × Int)) where
  Get := fun entries digest cursors =>
    match entries.find? (fun e => decide (e.1 = digest)) with
    | some (_, offset, length) =>
      if cursors.Contains offset length then (offset, length, true, none)
      else (0, 0, false, none)
    | none => (0, 0, false, none)
  Put := fun entries digest offset length _ => (none, (digest, offset, length) :: entries)

/-- The error with which the in-memory StateStore rejects an oversized
allocation. -/
def errTooBig : GoError := GoError.status Code.InvalidArgument "Blob does not fit"

/-- Modelled from the spec: the StateStore implementation is missing.
`Allocate` returns the value of `write` before the allocation, advances
`write` by `sizeBytes` and advances `read` as far as needed to restore
`write - read ≤ C`.  For `sizeBytes > C` the spec admits both policies: with
`reject` the allocation fails, without it the allocation succeeds and the
range is not live afterwards.  `Invalidate` advances `read` past a live range,
by at least one byte, so that the range is no longer live. -/
def memStateStore (C : Nat) (reject : Bool) : StateStore Cursors where
  GetCursors := fun c => c
  Allocate := fun c sizeBytes =>
    if reject = true ∧ sizeBytes > (C : Int) then
      ((0, some errTooBig), c)
    else
      let offset := c.Write
      let write := offset + sizeBytes.toNat
      let read := max c.Read (write - C)
      ((offset, none), ⟨read, write⟩)
  Invalidate := fun c offset sizeBytes =>
    if c.Contains offset sizeBytes then
      let read := offset + (max sizeBytes 1).toNat
      (none, ⟨read, max c.Write read⟩)
    else
      (none, c)

/-- The façade over the three in-memory stores of capacity `C`, with digests
named by numbers. -/
def memAccess (C : Nat) (reject : Bool) :
    circularBlobAccess Nat (List (Nat × Nat × Int)) (Nat → Byte) Cursors :=
  ⟨memDataStore C, memOffsetStore, memStateStore C reject⟩

/-- The empty in-memory stores. -/
def memFiles : Files (List (Nat × Nat × Int)) (Nat → Byte) Cursors :=
  ⟨[], fun _ => 0, ⟨0, 0⟩⟩

/-- The façade over in-memory stores of capacity 16 whose StateStore accepts
every allocation. -/
def ring16 : circularBlobAccess Nat (List (Nat × Nat × Int)) (Nat → Byte) Cursors :=
  memAccess 16 false

/-- An ordinary reader over the given bytes, not yet closed. -/
def bytesReader (bs : List Byte) : ReadCloser := ⟨⟨bs, GoError.EOF⟩, 0⟩

/-- A StateStore whose file is broken: every `Allocate` and `Invalidate`
fails with the given error. -/
def brokenStateStore (e : GoError) : StateStore Cursors where
  GetCursors := fun c => c
  Allocate := fun c _ => ((0, some e), c)
  Invalidate := fun c _ _ => (some e, c)

/-- An OffsetStore whose file is broken: every call fails with the given
error. -/
def brokenOffsetStore (e : GoError) : OffsetStore Nat Unit where
  Get := fun _ _ _ => (0, 0, false, some e)
  Put := fun u _ _ _ _ => (some e, u)

/-- A DataStore whose file is broken: every `Put` fails with the given error
without reading from the reader. -/
def brokenDataStore (e : GoError) : DataStore Unit where
  Put := fun u r _ => (some e, u, r)
  Get := fun _ _ _ => ⟨[], e⟩

/-- The façade over in-memory stores of capacity 16 whose state file is
broken. -/
def brokenStateAccess (e : GoError) :
    circularBlobAccess Nat (List (Nat × Nat × Int)) (Nat → Byte) Cursors :=
  ⟨memDataStore 16, memOffsetStore, brokenStateStore e⟩

/-- The façade over three broken stores. -/
def brokenAccess (e : GoError) : circularBlobAccess Nat Unit Unit Cursors :=
  ⟨brokenDataStore e, brokenOffsetStore e, brokenStateStore e⟩

/-! ## Contracts of the stores

The façade relies on what the spec promises of the stores; the promises used
below are stated here as predicates on a store. -/

/-- The OffsetStore returns what was recorded when it is live: after a
successful `Put` of `(digest, offset, length)`, a `Get` of that digest against
cursors that contain the range yields it. -/
def OffsetStore.ReturnsRecorded {δ ω : Type} (os : OffsetStore δ ω) : Prop :=
  ∀ (w w1 : ω) (digest : δ) (offset : Nat) (length : Int) (c c1 : Cursors),
    os.Put w digest offset length c = (none, w1) →
    c1.Contains offset length = true →
    os.Get w1 digest c1 = (offset, length, true, none)

/-- The OffsetStore couples lookup and liveness: an entry that it returns
against some cursors is reported absent against cursors that do not contain
its range. -/
def OffsetStore.LivenessCoupled {δ ω : Type} (os : OffsetStore δ ω) : Prop :=
  ∀ (w : ω) (digest : δ) (c c1 : Cursors) (offset : Nat) (length : Int),
    os.Get w digest c = (offset, length, true, none) →
    c1.Contains offset length = false →
    (os.Get w digest c1).2.2 = (false, none)

/-- The DataStore of capacity `C` stores and returns bytes by offset: after a
successful `Put` of an ordinary stream of at most `C` bytes at `offset`, `Get`
of that range yields exactly those bytes. -/
def DataStore.ReturnsStored {κ : Type} (ds : DataStore κ) (C : Nat) : Prop :=
  ∀ (k k1 : κ) (r r1 : Reader) (offset : Nat),
    ds.Put k r offset = (none, k1, r1) →
    r.fail = GoError.EOF →
    r.data.length ≤ C →
    ds.Get k1 offset (r.data.length : Int) = ⟨r.data, GoError.EOF⟩

/-- The DataStore serves bytes by offset: in the state `k`, reading a range
from `off` bytes after its start yields the range's bytes from `off` on. -/
def DataStore.ByOffset {κ : Type} (ds : DataStore κ) (k : κ) : Prop :=
  ∀ (offset : Nat) (length off : Int), 0 ≤ off → off ≤ length →
    ds.Get k (offset + off.toNat) (length - off)
      = ⟨(ds.Get k offset length).data.drop off.toNat, (ds.Get k offset length).fail⟩

/-- The StateStore retires what it invalidates: after a successful
`Invalidate` the cursors no longer contain the range. -/
def StateStore.InvalidateRetires {τ : Type} (ss : StateStore τ) : Prop :=
  ∀ (t t1 : τ) (offset : Nat) (sizeBytes : Int),
    ss.Invalidate t offset sizeBytes = (none, t1) →
    (ss.GetCursors t1).Contains offset sizeBytes = false

/-- Whether a call is a read of the DataStore. -/
def Call.isDataGet {δ : Type} : Call δ → Bool
  | Call.DataGet _ _ => true
  | _ => false

/-- Whether a call is a write to the DataStore. -/
def Call.isDataPut {δ : Type} : Call δ → Bool
  | Call.DataPut _ => true
  | _ => false

/-- Whether a call records an index entry. -/
def Call.isOffsetPut {δ : Type} : Call δ → Bool
  | Call.OffsetPut _ _ _ _ => true
  | _ => false

/-- Whether a call is `StateStore.Invalidate`. -/
def Call.isInvalidate {δ : Type} : Call δ → Bool
  | Call.Invalidate _ _ => true
  | _ => false

/-! ## Scenarios -/

/-- The bytes of "abcdefgh". -/
def abcdefgh : List Byte := [97, 98, 99, 100, 101, 102, 103, 104]

/-- Capacity 16, after `Put(1, "abcdefgh")`. -/
def filesA : Files (List (Nat × Nat × Int)) (Nat → Byte) Cursors :=
  (ring16.Put memFiles 1 8 (bytesReader abcdefgh)).files

/-- Capacity 16, after `Put(1, "abcdefgh")` and `Put(2, "xy")`. -/
def filesAB : Files (List (Nat × Nat × Int)) (Nat → Byte) Cursors :=
  (ring16.Put filesA 2 2 (bytesReader [120, 121])).files

/-- Capacity 16, after `Put(1, "x")`. -/
def filesX : Files (List (Nat × Nat × Int)) (Nat → Byte) Cursors :=
  (ring16.Put memFiles 1 1 (bytesReader [120])).files

/-- Modelled from the spec: the StateStore implementation is missing; this is
the spec's minimal `Invalidate`: if the range abuts `read`, advance `read`
past it, otherwise leave the ring untouched.  `Allocate` is that of the
in-memory StateStore that accepts every allocation. -/
def minimalStateStore (C : Nat) : StateStore Cursors where
  GetCursors := fun c => c
  Allocate := (memStateStore C false).Allocate
  Invalidate := fun c offset sizeBytes =>
    if offset = c.Read then (none, ⟨offset + sizeBytes.toNat, c.Write⟩) else (none, c)

/-- The façade over in-memory stores of capacity 16 whose StateStore has the
minimal `Invalidate`. -/
def minimal16 : circularBlobAccess Nat (List (Nat × Nat × Int)) (Nat → Byte) Cursors :=
  ⟨memDataStore 16, memOffsetStore, minimalStateStore 16⟩

/-- Capacity 16, minimal `Invalidate`, after `Put(1, "x")` and `Put(2, "y")`. -/
def filesXY : Files (List (Nat × Nat × Int)) (Nat → Byte) Cursors :=
  (minimal16.Put (minimal16.Put memFiles 1 1 (bytesReader [120])).files 2 1
    (bytesReader [121])).files

/-- Capacity 16, cursors `(0, 10)`, and an index that holds for digest 7 the
range `[12, 22)`, which lies ahead of the write cursor. -/
def filesAhead : Files (List (Nat × Nat × Int)) (Nat → Byte) Cursors :=
  ⟨[(7, 12, 10)], fun _ => 0, ⟨0, 10⟩⟩

/-! # Theorems -/

/-! ## The key prefix -/

/-- C10. `prefixedKeyer p k` is `k` itself for the empty prefix; for a non-empty
prefix, where `k` succeeds with key `s` the result succeeds with `p1 ++ s`,
`p1` being `p` if `p` already ends in a slash and `p` followed by one slash
otherwise; where `k` fails the result is `k`'s key and error, unprefixed. -/
theorem prefixedKeyer_spec {δ : Type} (p : GoString) (k : DigestKeyer δ) :
    (p = [] → prefixedKeyer p k = k) ∧
    (p ≠ [] → ∀ (inst : GoString) (digest : δ),
      (∀ s, k inst digest = (s, none) →
        prefixedKeyer p k inst digest
          = ((if p.getLast? = some slash then p else p ++ [slash]) ++ s, none)) ∧
      (∀ s e, k inst digest = (s, some e) →
        prefixedKeyer p k inst digest = (s, some e))) := by
  refine ⟨?_, ?_⟩
  · intro hp
    subst hp
    rfl
  · intro hp inst digest
    have hlen : ¬ p.length = 0 := by
      intro h
      exact hp (List.length_eq_zero.mp h)
    have hlast : p.getLast? = some (p.getD (p.length - 1) 0) := by
      rw [List.getLast?_eq_getElem?, List.getD_eq_getElem?_getD]
      have hlt : p.length - 1 < p.length := by omega
      rw [List.getElem?_eq_getElem hlt]
      rfl
    refine ⟨?_, ?_⟩
    · intro s hs
      simp only [prefixedKeyer, hlen, if_false, hs, hlast, Option.some.injEq]
      by_cases hc : p.getD (p.length - 1) 0 = slash
      · simp [hc]
      · simp [hc]
    · intro s e hs
      simp only [prefixedKeyer, hlen, if_false, hs]

/-- Witness for C10 on the prefixes "a" and "a/" and on a failing keyer. -/
theorem prefixedKeyer_spec_witness :
    prefixedKeyer [97] (fun _ (_ : Nat) => ([98], none)) [] 0 = ([97, 47, 98], none) ∧
    prefixedKeyer [97, 47] (fun _ (_ : Nat) => ([98], none)) [] 0 = ([97, 47, 98], none) ∧
    prefixedKeyer [97] (fun _ (_ : Nat) => ([98], some GoError.EOF)) [] 0
      = ([98], some GoError.EOF) :=
  ⟨((prefixedKeyer_spec [97] (fun _ (_ : Nat) => ([98], none))).2 (by decide) [] 0).1 [98] rfl,
   ((prefixedKeyer_spec [97, 47] (fun _ (_ : Nat) => ([98], none))).2 (by decide) [] 0).1 [98] rfl,
   ((prefixedKeyer_spec [97] (fun _ (_ : Nat) => ([98], some GoError.EOF))).2
      (by decide) [] 0).2 [98] GoError.EOF rfl⟩

/-! ## `FindMissing` -/

/-- When no lookup fails the loop appends, in order, the digests whose lookup
is not `ok`. -/
theorem findMissingLoop_ok {δ ω κ τ : Type} (ba : circularBlobAccess δ ω κ τ)
    (s : Files ω κ τ) (cursors : Cursors) (digests : List δ) :
    ∀ (missingDigests : List δ) (calls : List (Call δ)),
    (∀ d ∈ digests, (ba.offsetStore.Get s.offsets d cursors).2.2.2 = none) →
    ba.findMissingLoop s cursors digests missingDigests calls
      = ⟨missingDigests
          ++ digests.filter (fun d => !(ba.offsetStore.Get s.offsets d cursors).2.2.1),
         none, calls ++ digests.map (fun d => Call.OffsetGet d cursors)⟩ := by
  induction digests with
  | nil => intro m calls _; simp [circularBlobAccess.findMissingLoop]
  | cons d ds ih =>
    intro m calls h
    have hd := h d (List.mem_cons_self d ds)
    have hds : ∀ x ∈ ds, (ba.offsetStore.Get s.offsets x cursors).2.2.2 = none :=
      fun x hx => h x (List.mem_cons_of_mem d hx)
    rcases hg : ba.offsetStore.Get s.offsets d cursors with ⟨o, l, ok, err⟩
    rw [hg] at hd
    simp only at hd
    subst hd
    cases ok
    · simp [circularBlobAccess.findMissingLoop, hg, ih _ _ hds]
    · simp [circularBlobAccess.findMissingLoop, hg, ih _ _ hds]

/-- The loop stops at the first lookup that fails and returns its error and
no list. -/
theorem findMissingLoop_fail {δ ω κ τ : Type} (ba : circularBlobAccess δ ω κ τ)
    (s : Files ω κ τ) (cursors : Cursors) (pre : List δ) (d : δ) (post : List δ) (e : GoError) :
    ∀ (missingDigests : List δ) (calls : List (Call δ)),
    (∀ x ∈ pre, (ba.offsetStore.Get s.offsets x cursors).2.2.2 = none) →
    (ba.offsetStore.Get s.offsets d cursors).2.2.2 = some e →
    ba.findMissingLoop s cursors (pre ++ d :: post) missingDigests calls
      = ⟨[], some e, calls ++ (pre ++ [d]).map (fun x => Call.OffsetGet x cursors)⟩ := by
  induction pre with
  | nil =>
    intro m calls _ hd
    rcases hg : ba.offsetStore.Get s.offsets d cursors with ⟨o, l, ok, err⟩
    rw [hg] at hd
    simp only at hd
    subst hd
    simp [circularBlobAccess.findMissingLoop, hg]
  | cons x xs ih =>
    intro m calls h hd
    have hx := h x (List.mem_cons_self x xs)
    have hxs : ∀ y ∈ xs, (ba.offsetStore.Get s.offsets y cursors).2.2.2 = none :=
      fun y hy => h y (List.mem_cons_of_mem x hy)
    rcases hg : ba.offsetStore.Get s.offsets x cursors with ⟨o, l, ok, err⟩
    rw [hg] at hx
    simp only at hx
    subst hx
    cases ok
    · simp [circularBlobAccess.findMissingLoop, hg, ih _ _ hxs hd]
    · simp [circularBlobAccess.findMissingLoop, hg, ih _ _ hxs hd]

/-- When the lookup of a digest does not fail, `Get` reports NotFound exactly
when the lookup is not `ok`. -/
theorem Get_notFound_iff {δ ω κ τ : Type} (ba : circularBlobAccess δ ω κ τ)
    (s : Files ω κ τ) (d : δ)
    (h : (ba.offsetStore.Get s.offsets d (ba.stateStore.GetCursors s.state)).2.2.2 = none) :
    (ba.Get s d).err = some errNotFound
      ↔ (ba.offsetStore.Get s.offsets d (ba.stateStore.GetCursors s.state)).2.2.1 = false := by
  rcases hg : ba.offsetStore.Get s.offsets d (ba.stateStore.GetCursors s.state)
    with ⟨o, l, ok, err⟩
  rw [hg] at h
  simp only at h
  subst h
  cases ok <;> simp [circularBlobAccess.Get, hg]

/-- C2. In a state in which no lookup of a digest of `D` fails, `FindMissing D`
succeeds and returns exactly the digests of `D` for which `Get` reports
NotFound, which are those whose lookup finds no live entry: in input order,
each kept as often as it occurs in `D`, and none of them a digest for which
`Get` succeeds. -/
theorem FindMissing_spec {δ ω κ τ : Type} [DecidableEq δ] (ba : circularBlobAccess δ ω κ τ)
    (s : Files ω κ τ) (D : List δ)
    (h : ∀ d ∈ D,
      (ba.offsetStore.Get s.offsets d (ba.stateStore.GetCursors s.state)).2.2.2 = none) :
    (ba.FindMissing s D).err = none ∧
    (ba.FindMissing s D).missing
      = D.filter (fun d => decide ((ba.Get s d).err = some errNotFound)) ∧
    (ba.FindMissing s D).missing
      = D.filter (fun d =>
          !(ba.offsetStore.Get s.offsets d (ba.stateStore.GetCursors s.state)).2.2.1) ∧
    (ba.FindMissing s D).missing.Sublist D ∧
    (∀ d, (ba.FindMissing s D).missing.count d
      = if (ba.Get s d).err = some errNotFound then D.count d else 0) ∧
    (∀ d ∈ (ba.FindMissing s D).missing, (ba.Get s d).err ≠ none) := by
  have hloop := findMissingLoop_ok ba s (ba.stateStore.GetCursors s.state) D []
    [Call.GetCursors] h
  have hmiss : (ba.FindMissing s D).missing
      = D.filter (fun d =>
          !(ba.offsetStore.Get s.offsets d (ba.stateStore.GetCursors s.state)).2.2.1) := by
    simp [circularBlobAccess.FindMissing, hloop]
  have hfilter : D.filter (fun d =>
          !(ba.offsetStore.Get s.offsets d (ba.stateStore.GetCursors s.state)).2.2.1)
      = D.filter (fun d => decide ((ba.Get s d).err = some errNotFound)) := by
    apply List.filter_congr
    intro d hd
    have := Get_notFound_iff ba s d (h d hd)
    by_cases hc : (ba.Get s d).err = some errNotFound
    · simp [hc, this.mp hc]
    · have hne : (ba.offsetStore.Get s.offsets d (ba.stateStore.GetCursors s.state)).2.2.1
          ≠ false := fun hf => hc (this.mpr hf)
      simp [hc, hne]
  have hmiss2 : (ba.FindMissing s D).missing
      = D.filter (fun d => decide ((ba.Get s d).err = some errNotFound)) := hmiss.trans hfilter
  refine ⟨?_, hmiss2, hmiss, ?_, ?_, ?_⟩
  · simp [circularBlobAccess.FindMissing, hloop]
  · rw [hmiss]
    exact List.filter_sublist D
  · intro d
    rw [hmiss2]
    by_cases hc : (ba.Get s d).err = some errNotFound
    · rw [if_pos hc]
      exact List.count_filter (by simpa using hc)
    · rw [if_neg hc]
      apply List.count_eq_zero.mpr
      intro hmem
      have := (List.mem_filter.mp hmem).2
      simp only [decide_eq_true_eq] at this
      exact hc this
  · intro d hd
    rw [hmiss2] at hd
    have := (List.mem_filter.mp hd).2
    simp only [decide_eq_true_eq] at this
    rw [this]
    simp

/-- Witness for C2: with blobs 1 and 2 stored, the missing digests of
`[1, 3, 2, 4, 3]` are `[3, 4, 3]`. -/
theorem FindMissing_spec_witness :
    (ring16.FindMissing filesAB [1, 3, 2, 4, 3]).err = none ∧
    (ring16.FindMissing filesAB [1, 3, 2, 4, 3]).missing = [3, 4, 3] :=
  ⟨(FindMissing_spec ring16 filesAB [1, 3, 2, 4, 3] (by decide)).1,
   (FindMissing_spec ring16 filesAB [1, 3, 2, 4, 3] (by decide)).2.1.trans (by decide)⟩

/-! ## `GetAndReadAt` -/

/-- What `io.ReadFull` returns on an ordinary finite stream. -/
theorem ReadFull_ordinary (data b : List Byte) :
    ReadFull ⟨data, GoError.EOF⟩ b
      = (data.take (min b.length data.length) ++ b.drop (min b.length data.length),
         min b.length data.length,
         if b.length ≤ data.length then none
         else if 0 < data.length then some GoError.ErrUnexpectedEOF
         else some GoError.EOF) := by
  unfold ReadFull
  by_cases h1 : b.length ≤ data.length
  · simp [h1]
  · have h2 : ¬ (min b.length data.length ≥ b.length) := by
      rw [ge_iff_le, le_min_iff]
      exact fun h => h1 h.2
    have h3 : min b.length data.length = data.length := by
      apply min_eq_right
      omega
    simp only [h2, if_false, h1, and_true]
    by_cases h4 : 0 < data.length
    · simp [h3, h4]
    · simp [h3, h4]

/-- The in-memory DataStore serves bytes by offset. -/
theorem memDataStore_byOffset (C : Nat) (bytes : Nat → Byte) :
    (memDataStore C).ByOffset bytes := by
  intro offset length off h0 hl
  have hlen : (length - off).toNat = length.toNat - off.toNat := by omega
  simp only [memDataStore, ringRead, hlen, Reader.mk.injEq, and_true]
  apply List.ext_getElem
  · simp
  · intro i h1 h2
    simp [Nat.add_assoc]

/-- C3. For a digest with a live entry `(o, L)` whose stored bytes are `B`, of
length `L`, an offset `0 ≤ off ≤ L` and a buffer `b` of size `k`,
`GetAndReadAt` returns `n = min(k, L - off)`, leaves in the buffer the bytes
`B[off .. off+n)` followed by the buffer's old bytes from `n` on, and returns
no error when `n = k` and `io.EOF`, never `io.ErrUnexpectedEOF`, when
`n < k`. -/
theorem GetAndReadAt_live {δ ω κ τ : Type} (ba : circularBlobAccess δ ω κ τ)
    (s : Files ω κ τ) (digest : δ) (b : List Byte) (off : Int) (o : Nat) (B : List Byte)
    (hlive : ba.offsetStore.Get s.offsets digest (ba.stateStore.GetCursors s.state)
      = (o, (B.length : Int), true, none))
    (hstored : ba.dataStore.Get s.data o (B.length : Int) = ⟨B, GoError.EOF⟩)
    (hby : ba.dataStore.ByOffset s.data)
    (h0 : 0 ≤ off) (hL : off ≤ (B.length : Int)) (hno : o + off.toNat < 2 ^ 64) :
    (ba.GetAndReadAt s digest b off).n = min b.length (B.length - off.toNat) ∧
    (ba.GetAndReadAt s digest b off).buf
      = (B.drop off.toNat).take (min b.length (B.length - off.toNat))
        ++ b.drop (min b.length (B.length - off.toNat)) ∧
    (min b.length (B.length - off.toNat) = b.length →
      (ba.GetAndReadAt s digest b off).err = none) ∧
    (min b.length (B.length - off.toNat) < b.length →
      (ba.GetAndReadAt s digest b off).err = some GoError.EOF) ∧
    (ba.GetAndReadAt s digest b off).err ≠ some GoError.ErrUnexpectedEOF := by
  have hnot : ¬ off < 0 := by omega
  have hnot2 : ¬ ((B.length : Int) < off) := by omega
  have hget : ba.dataStore.Get s.data ((o + off.toNat) % 2 ^ 64) ((B.length : Int) - off)
      = ⟨B.drop off.toNat, GoError.EOF⟩ := by
    rw [Nat.mod_eq_of_lt hno, hby o (B.length : Int) off h0 hL, hstored]
  have hres : ba.GetAndReadAt s digest b off
      = ⟨(B.drop off.toNat).take (min b.length (B.length - off.toNat))
          ++ b.drop (min b.length (B.length - off.toNat)),
         min b.length (B.length - off.toNat),
         if b.length ≤ B.length - off.toNat then none else some GoError.EOF,
         [Call.GetCursors, Call.OffsetGet digest (ba.stateStore.GetCursors s.state),
          Call.DataGet ((o + off.toNat) % 2 ^ 64) ((B.length : Int) - off)]⟩ := by
    simp only [circularBlobAccess.GetAndReadAt, hnot, if_false, hlive, hnot2, if_true, hget,
      ReadFull_ordinary, List.length_drop]
    by_cases h1 : b.length ≤ B.length - off.toNat
    · simp [h1]
    · by_cases h2 : 0 < B.length - off.toNat
      · simp [h1, h2]
      · simp [h1, h2]
  rw [hres]
  refine ⟨rfl, rfl, ?_, ?_, ?_⟩
  · intro h
    have : b.length ≤ B.length - off.toNat := by
      rw [← h]
      exact min_le_right _ _
    simp [this]
  · intro h
    have : ¬ b.length ≤ B.length - off.toNat := by
      intro hle
      rw [min_eq_left hle] at h
      exact lt_irrefl _ h
    simp [this]
  · by_cases h1 : b.length ≤ B.length - off.toNat <;> simp [h1]

/-- Witness for C3: blob "abcdefgh", a buffer of four bytes and `off = 2` give
`n = 4` and "cdef". -/
theorem GetAndReadAt_live_witness :
    (ring16.GetAndReadAt filesA 1 [0, 0, 0, 0] 2).n = 4 ∧
    (ring16.GetAndReadAt filesA 1 [0, 0, 0, 0] 2).buf = [99, 100, 101, 102] ∧
    (ring16.GetAndReadAt filesA 1 [0, 0, 0, 0] 2).err = none :=
  have h := GetAndReadAt_live ring16 filesA 1 [0, 0, 0, 0] 2 0 abcdefgh (by decide)
    (by decide) (memDataStore_byOffset 16 filesA.data) (by decide) (by decide) (by decide)
  ⟨h.1.trans (by decide), h.2.1.trans (by decide), h.2.2.1 (by decide)⟩

/-- C4. Error classification of `GetAndReadAt`: a negative offset gives
`(0, InvalidArgument)` with no store call at all, whatever the stores hold;
otherwise a digest without live entry gives `(0, NotFound)`; otherwise an
offset beyond the length gives `(0, io.EOF)` with no read of the DataStore; and
an offset equal to the length, with a non-empty buffer and a DataStore that
yields no byte for an empty range, gives `io.EOF`. -/
theorem GetAndReadAt_errors {δ ω κ τ : Type} (ba : circularBlobAccess δ ω κ τ)
    (s : Files ω κ τ) (digest : δ) (b : List Byte) (off : Int) :
    (off < 0 → ba.GetAndReadAt s digest b off
      = ⟨b, 0, some (GoError.status Code.InvalidArgument "Cannot read at negative offset"),
          []⟩) ∧
    (0 ≤ off → ∀ (o : Nat) (l : Int),
      ba.offsetStore.Get s.offsets digest (ba.stateStore.GetCursors s.state)
        = (o, l, false, none) →
      (ba.GetAndReadAt s digest b off).n = 0 ∧
      (ba.GetAndReadAt s digest b off).err
        = some (GoError.status Code.NotFound "Blob not found") ∧
      (ba.GetAndReadAt s digest b off).buf = b) ∧
    (0 ≤ off → ∀ (o : Nat) (l : Int),
      ba.offsetStore.Get s.offsets digest (ba.stateStore.GetCursors s.state)
        = (o, l, true, none) →
      l < off →
      (ba.GetAndReadAt s digest b off).n = 0 ∧
      (ba.GetAndReadAt s digest b off).err = some GoError.EOF ∧
      (ba.GetAndReadAt s digest b off).buf = b ∧
      ∀ c ∈ (ba.GetAndReadAt s digest b off).calls, c.isDataGet = false) ∧
    (0 ≤ off → ∀ (o : Nat) (l : Int),
      ba.offsetStore.Get s.offsets digest (ba.stateStore.GetCursors s.state)
        = (o, l, true, none) →
      off = l → b ≠ [] →
      ba.dataStore.Get s.data ((o + off.toNat) % 2 ^ 64) 0 = ⟨[], GoError.EOF⟩ →
      (ba.GetAndReadAt s digest b off).n = 0 ∧
      (ba.GetAndReadAt s digest b off).err = some GoError.EOF) := by
  refine ⟨?_, ?_, ?_, ?_⟩
  · intro h
    simp [circularBlobAccess.GetAndReadAt, h, errNegativeOffset]
  · intro h o l hg
    have hnot : ¬ off < 0 := by omega
    simp [circularBlobAccess.GetAndReadAt, hnot, hg, errNotFound]
  · intro h o l hg hlt
    have hnot : ¬ off < 0 := by omega
    simp [circularBlobAccess.GetAndReadAt, hnot, hg, hlt, Call.isDataGet]
  · intro h o l hg hoff hb hds
    have hnot : ¬ off < 0 := by omega
    subst hoff
    have hlen : ¬ b.length = 0 := fun hz => hb (List.length_eq_zero.mp hz)
    simp only [circularBlobAccess.GetAndReadAt, hnot, if_false, hg, lt_irrefl, sub_self, hds,
      ReadFull_ordinary, if_true]
    simp [hlen]

/-- Witness for C4: on the 8-byte blob "abcdefgh", `off = -1` is rejected
without a store call and `off = 8` with a buffer of four bytes gives
`io.EOF`. -/
theorem GetAndReadAt_errors_witness :
    ring16.GetAndReadAt filesA 1 [0, 0, 0, 0] (-1)
      = ⟨[0, 0, 0, 0], 0,
          some (GoError.status Code.InvalidArgument "Cannot read at negative offset"), []⟩ ∧
    (ring16.GetAndReadAt filesA 1 [0, 0, 0, 0] 8).n = 0 ∧
    (ring16.GetAndReadAt filesA 1 [0, 0, 0, 0] 8).err = some GoError.EOF :=
  ⟨(GetAndReadAt_errors ring16 filesA 1 [0, 0, 0, 0] (-1)).1 (by decide),
   (GetAndReadAt_errors ring16 filesA 1 [0, 0, 0, 0] 8).2.2.2 (by decide) 0 8
     (by decide) rfl (by decide) (by decide)⟩

/-! ## `Put` -/

/-- The in-memory StateStore keeps the size bound `write - read ≤ C` after
every successful `Allocate`. -/
theorem memStateStore_sizeBound (C : Nat) (reject : Bool) (c : Cursors) (sizeBytes : Int) :
    ((memStateStore C reject).Allocate c sizeBytes).1.2 = none →
    ((memStateStore C reject).GetCursors ((memStateStore C reject).Allocate c sizeBytes).2).Write
      ≤ ((memStateStore C reject).GetCursors
          ((memStateStore C reject).Allocate c sizeBytes).2).Read + C := by
  intro h
  by_cases hr : reject = true ∧ sizeBytes > (C : Int)
  · simp [memStateStore, hr, errTooBig] at h
  · simp only [memStateStore, hr, if_false]
    omega


/-- C5, amended. Commit phase of `Put`: when `Allocate` returned offset `o`
and the DataStore write succeeded, an index entry is recorded if and only if
the cursors re-read after the write satisfy `read ≤ o` and
`o + sizeBytes ≤ write`, and the entry recorded is `(digest, o, sizeBytes)`;
when they do not, `Put` returns the stale error, the OffsetStore is left
unchanged, and a following `Get` of a digest for which that unchanged index
holds no entry that is live against the cursors then in force returns
NotFound. -/
theorem Put_commit {δ ω κ τ : Type} (ba : circularBlobAccess δ ω κ τ)
    (s : Files ω κ τ) (digest : δ) (sizeBytes : Int) (r : ReadCloser)
    (o : Nat) (state1 : τ) (data1 : κ) (reader1 : Reader)
    (halloc : ba.stateStore.Allocate s.state sizeBytes = ((o, none), state1))
    (hwrite : ba.dataStore.Put s.data r.reader o = (none, data1, reader1)) :
    ((∃ c ∈ (ba.Put s digest sizeBytes r).calls, c.isOffsetPut = true)
      ↔ ((ba.stateStore.GetCursors state1).Read ≤ o
          ∧ (o : Int) + sizeBytes ≤ ((ba.stateStore.GetCursors state1).Write : Int))) ∧
    (((ba.stateStore.GetCursors state1).Read ≤ o
        ∧ (o : Int) + sizeBytes ≤ ((ba.stateStore.GetCursors state1).Write : Int)) →
      (ba.Put s digest sizeBytes r).calls
        = [Call.Allocate sizeBytes, Call.DataPut o, Call.GetCursors,
           Call.OffsetPut digest o sizeBytes (ba.stateStore.GetCursors state1)] ∧
      (ba.Put s digest sizeBytes r).err
        = (ba.offsetStore.Put s.offsets digest o sizeBytes
            (ba.stateStore.GetCursors state1)).1 ∧
      (ba.Put s digest sizeBytes r).files.offsets
        = (ba.offsetStore.Put s.offsets digest o sizeBytes
            (ba.stateStore.GetCursors state1)).2) ∧
    (¬ ((ba.stateStore.GetCursors state1).Read ≤ o
        ∧ (o : Int) + sizeBytes ≤ ((ba.stateStore.GetCursors state1).Write : Int)) →
      (ba.Put s digest sizeBytes r).err
        = some (GoError.errorsNew "Data became stale before write completed") ∧
      (ba.Put s digest sizeBytes r).files.offsets = s.offsets ∧
      (ba.Put s digest sizeBytes r).calls
        = [Call.Allocate sizeBytes, Call.DataPut o, Call.GetCursors] ∧
      ∀ d : δ,
        (ba.offsetStore.Get s.offsets d (ba.stateStore.GetCursors state1)).2.2
          = (false, none) →
        (ba.Get (ba.Put s digest sizeBytes r).files d).err
          = some (GoError.status Code.NotFound "Blob not found") ∧
        (ba.Get (ba.Put s digest sizeBytes r).files d).reader = none) := by
  by_cases hc : (ba.stateStore.GetCursors state1).Read ≤ o
      ∧ (o : Int) + sizeBytes ≤ ((ba.stateStore.GetCursors state1).Write : Int)
  · have hcont : (ba.stateStore.GetCursors state1).Contains o sizeBytes = true := by
      simp [Cursors.Contains, hc]
    have hput : ba.Put s digest sizeBytes r
        = ⟨(ba.offsetStore.Put s.offsets digest o sizeBytes
              (ba.stateStore.GetCursors state1)).1,
           ⟨(ba.offsetStore.Put s.offsets digest o sizeBytes
              (ba.stateStore.GetCursors state1)).2, data1, state1⟩,
           ⟨reader1, r.closed + 1⟩,
           [Call.Allocate sizeBytes, Call.DataPut o, Call.GetCursors,
            Call.OffsetPut digest o sizeBytes (ba.stateStore.GetCursors state1)]⟩ := by
      simp [circularBlobAccess.Put, halloc, hwrite, hcont]
    rw [hput]
    refine ⟨⟨fun _ => hc, fun _ => ⟨_, List.mem_cons_of_mem _ (List.mem_cons_of_mem _
      (List.mem_cons_of_mem _ (List.mem_singleton.mpr rfl))), rfl⟩⟩, fun _ => ⟨rfl, rfl, rfl⟩,
      fun h => absurd hc h⟩
  · have hcont : (ba.stateStore.GetCursors state1).Contains o sizeBytes = false := by
      simp only [Cursors.Contains, decide_eq_false_iff_not]
      exact hc
    have hput : ba.Put s digest sizeBytes r
        = ⟨some errStale, ⟨s.offsets, data1, state1⟩, ⟨reader1, r.closed + 1⟩,
           [Call.Allocate sizeBytes, Call.DataPut o, Call.GetCursors]⟩ := by
      simp [circularBlobAccess.Put, halloc, hwrite, hcont]
    rw [hput]
    refine ⟨⟨?_, fun h => absurd h hc⟩, fun h => absurd h hc, fun _ => ⟨rfl, rfl, rfl, ?_⟩⟩
    · rintro ⟨c, hmem, hput⟩
      simp only [List.mem_cons, List.mem_singleton, List.not_mem_nil, or_false] at hmem
      rcases hmem with h | h | h <;> subst h <;> simp [Call.isOffsetPut] at hput
    · intro d hd
      rcases hg : ba.offsetStore.Get s.offsets d (ba.stateStore.GetCursors state1)
        with ⟨o1, l1, ok1, err1⟩
      rw [hg] at hd
      simp only [Prod.mk.injEq] at hd
      obtain ⟨h1, h2⟩ := hd
      subst h1 h2
      simp [circularBlobAccess.Get, hg, errNotFound]

/-- C5 fails as stated. With capacity 16, cursors `(0, 10)` and an index that
holds the range `[12, 22)` for digest 7, digest 7 has no live entry and `Get`
returns NotFound. A `Put` of 17 bytes is then stale and leaves the index
unchanged, yet it has advanced the cursors to `(11, 27)`, and the following
`Get` of digest 7 finds the entry live and succeeds. -/
theorem Put_stale_Get_counterexample :
    (ring16.Get filesAhead 7).err = some (GoError.status Code.NotFound "Blob not found") ∧
    (ring16.Put filesAhead 7 17 (bytesReader (List.replicate 17 120))).err
      = some (GoError.errorsNew "Data became stale before write completed") ∧
    (ring16.Put filesAhead 7 17 (bytesReader (List.replicate 17 120))).files.offsets
      = filesAhead.offsets ∧
    (ring16.Put filesAhead 7 17 (bytesReader (List.replicate 17 120))).files.state
      = ⟨11, 27⟩ ∧
    (ring16.Get (ring16.Put filesAhead 7 17 (bytesReader (List.replicate 17 120))).files
        7).err = none ∧
    ¬ ((ring16.Get (ring16.Put filesAhead 7 17 (bytesReader (List.replicate 17 120))).files
        7).err = some (GoError.status Code.NotFound "Blob not found")) := by
  refine ⟨by decide, by decide, by decide, by decide, by decide, by decide⟩

/-- Witness for the amended C5: with capacity 16 and a StateStore that accepts
every allocation, a `Put` of 17 bytes finds its range not live at commit: it
returns the stale error, records nothing, and `Get` of its digest returns
NotFound. -/
theorem Put_commit_witness :
    (ring16.Put memFiles 1 17 (bytesReader (List.replicate 17 120))).err
      = some (GoError.errorsNew "Data became stale before write completed") ∧
    (ring16.Put memFiles 1 17 (bytesReader (List.replicate 17 120))).files.offsets = [] ∧
    (ring16.Get (ring16.Put memFiles 1 17 (bytesReader (List.replicate 17 120))).files 1).err
      = some (GoError.status Code.NotFound "Blob not found") :=
  have h := (Put_commit ring16 memFiles 1 17 (bytesReader (List.replicate 17 120)) 0 ⟨1, 17⟩
    (ringWrite 16 (fun _ => 0) 0 (List.replicate 17 120)) ⟨[], GoError.EOF⟩ rfl rfl).2.2
    (by decide)
  ⟨h.1, h.2.1, (h.2.2.2 1 (by decide)).1⟩

/-- C7 fails as stated. With a StateStore whose `Allocate` fails, `Put` of a
three-byte reader makes no call but `Allocate` and returns with the reader
closed once but with all three bytes still unread. -/
theorem Put_reader_counterexample :
    ((brokenStateAccess (GoError.storeError 5)).Put memFiles 1 3
        (bytesReader [120, 121, 122])).calls = [Call.Allocate 3] ∧
    ((brokenStateAccess (GoError.storeError 5)).Put memFiles 1 3
        (bytesReader [120, 121, 122])).r = ⟨⟨[120, 121, 122], GoError.EOF⟩, 1⟩ ∧
    ¬ (((brokenStateAccess (GoError.storeError 5)).Put memFiles 1 3
          (bytesReader [120, 121, 122])).r.reader.data = [] ∧
       ((brokenStateAccess (GoError.storeError 5)).Put memFiles 1 3
          (bytesReader [120, 121, 122])).r.closed = 1) := by
  refine ⟨by decide, by decide, ?_⟩
  decide

/-- C7, amended. On every return path `Put` closes the reader exactly once.
The reader is read by `DataStore.Put` alone: when `Allocate` fails the reader
is left as it was and the DataStore is not called; when `Allocate` succeeds
the reader is left as `DataStore.Put` left it. -/
theorem Put_closes_reader {δ ω κ τ : Type} (ba : circularBlobAccess δ ω κ τ)
    (s : Files ω κ τ) (digest : δ) (sizeBytes : Int) (r : ReadCloser) :
    (ba.Put s digest sizeBytes r).r.closed = r.closed + 1 ∧
    ((ba.stateStore.Allocate s.state sizeBytes).1.2 ≠ none →
      (ba.Put s digest sizeBytes r).r.reader = r.reader ∧
      ∀ c ∈ (ba.Put s digest sizeBytes r).calls, c.isDataPut = false) ∧
    ((ba.stateStore.Allocate s.state sizeBytes).1.2 = none →
      (ba.Put s digest sizeBytes r).r.reader
        = (ba.dataStore.Put s.data r.reader
            (ba.stateStore.Allocate s.state sizeBytes).1.1).2.2) := by
  rcases ha : ba.stateStore.Allocate s.state sizeBytes with ⟨⟨o, err⟩, state1⟩
  cases err with
  | some e => simp [circularBlobAccess.Put, ha, Call.isDataPut]
  | none =>
    rcases hw : ba.dataStore.Put s.data r.reader o with ⟨werr, data1, reader1⟩
    cases werr with
    | some e => simp [circularBlobAccess.Put, ha, hw]
    | none =>
      by_cases hc : (ba.stateStore.GetCursors state1).Contains o sizeBytes = true
      · simp [circularBlobAccess.Put, ha, hw, hc]
      · simp [circularBlobAccess.Put, ha, hw, hc]

/-- Witness for the amended C7: on the in-memory stores a successful `Put`
leaves the reader read to its end and closed once. -/
theorem Put_closes_reader_witness :
    (ring16.Put memFiles 1 3 (bytesReader [120, 121, 122])).r.reader
      = ⟨[], GoError.EOF⟩ ∧
    (ring16.Put memFiles 1 3 (bytesReader [120, 121, 122])).r.closed = 1 :=
  have h := Put_closes_reader ring16 memFiles 1 3 (bytesReader [120, 121, 122])
  ⟨(h.2.2 (by decide)).trans (by decide), h.1⟩

/-- C8 fails as stated. With capacity 16 and a StateStore that accepts every
allocation, `Put` of 17 bytes does not fail early: it writes to the DataStore
at offset 0 and only then returns, with the stale error and not with
InvalidArgument. -/
theorem Put_oversized_counterexample :
    (ring16.Put memFiles 1 17 (bytesReader (List.replicate 17 120))).calls
      = [Call.Allocate 17, Call.DataPut 0, Call.GetCursors] ∧
    (ring16.Put memFiles 1 17 (bytesReader (List.replicate 17 120))).files.data 0 = 120 ∧
    ¬ ((∃ msg, (ring16.Put memFiles 1 17 (bytesReader (List.replicate 17 120))).err
          = some (GoError.status Code.InvalidArgument msg)) ∧
       ∀ c ∈ (ring16.Put memFiles 1 17 (bytesReader (List.replicate 17 120))).calls,
         c.isDataPut = false) := by
  refine ⟨by decide, by decide, ?_⟩
  rintro ⟨_, h⟩
  exact absurd (h (Call.DataPut 0) (by decide)) (by decide)

/-- C8, amended. For every `Put` with `sizeBytes` greater than the data
capacity `C`, on a StateStore that keeps the size bound `write - read ≤ C`
after a successful `Allocate`, `Put` fails with an error and records no index
entry. The façade makes no size check of its own, so the error need not come
early: it is the error of `Allocate` if that fails, the error of the DataStore
write if that fails, and otherwise the stale error of the commit phase,
returned after the bytes have been handed to the DataStore. -/
theorem Put_oversized_fails {δ ω κ τ : Type} (ba : circularBlobAccess δ ω κ τ)
    (s : Files ω κ τ) (digest : δ) (sizeBytes : Int) (r : ReadCloser) (C : Nat)
    (hbig : (C : Int) < sizeBytes)
    (hbound : (ba.stateStore.Allocate s.state sizeBytes).1.2 = none →
      (ba.stateStore.GetCursors (ba.stateStore.Allocate s.state sizeBytes).2).Write
        ≤ (ba.stateStore.GetCursors (ba.stateStore.Allocate s.state sizeBytes).2).Read + C) :
    (ba.Put s digest sizeBytes r).err ≠ none ∧
    (∀ c ∈ (ba.Put s digest sizeBytes r).calls, c.isOffsetPut = false) ∧
    (ba.Put s digest sizeBytes r).files.offsets = s.offsets ∧
    (∀ e, (ba.stateStore.Allocate s.state sizeBytes).1.2 = some e →
      (ba.Put s digest sizeBytes r).err = some e) ∧
    ((ba.stateStore.Allocate s.state sizeBytes).1.2 = none →
      (∀ e, (ba.dataStore.Put s.data r.reader
          (ba.stateStore.Allocate s.state sizeBytes).1.1).1 = some e →
        (ba.Put s digest sizeBytes r).err = some e) ∧
      ((ba.dataStore.Put s.data r.reader
          (ba.stateStore.Allocate s.state sizeBytes).1.1).1 = none →
        (ba.Put s digest sizeBytes r).err
          = some (GoError.errorsNew "Data became stale before write completed") ∧
        (ba.Put s digest sizeBytes r).calls
          = [Call.Allocate sizeBytes,
             Call.DataPut (ba.stateStore.Allocate s.state sizeBytes).1.1,
             Call.GetCursors])) := by
  rcases ha : ba.stateStore.Allocate s.state sizeBytes with ⟨⟨o, aerr⟩, state1⟩
  rw [ha] at hbound
  cases aerr with
  | some e => simp [circularBlobAccess.Put, ha, Call.isOffsetPut]
  | none =>
    have hb := hbound rfl
    simp only at hb
    have hc : (ba.stateStore.GetCursors state1).Contains o sizeBytes = false := by
      simp only [Cursors.Contains, decide_eq_false_iff_not, not_and]
      intro h1
      omega
    rcases hw : ba.dataStore.Put s.data r.reader o with ⟨werr, data1, reader1⟩
    cases werr with
    | some e => simp [circularBlobAccess.Put, ha, hw, Call.isOffsetPut]
    | none => simp [circularBlobAccess.Put, ha, hw, hc, Call.isOffsetPut, errStale]

/-- Witness for the amended C8: with capacity 16 and a StateStore that accepts
every allocation, `Put` of 17 bytes returns the stale error and leaves the
index empty. -/
theorem Put_oversized_fails_witness :
    (ring16.Put memFiles 1 17 (bytesReader (List.replicate 17 120))).err ≠ none ∧
    (ring16.Put memFiles 1 17 (bytesReader (List.replicate 17 120))).files.offsets = [] ∧
    (ring16.Put memFiles 1 17 (bytesReader (List.replicate 17 120))).err
      = some (GoError.errorsNew "Data became stale before write completed") :=
  have h := Put_oversized_fails ring16 memFiles 1 17 (bytesReader (List.replicate 17 120)) 16
    (by decide) (fun _ => by decide)
  ⟨h.1, h.2.2.1, (h.2.2.2.2 rfl).2 rfl |>.1⟩

/-! ## Propagation of store errors -/

/-- C9. The façade never swallows a store error. If the lookup of `digest`
fails with `e`, then `Get`, `GetAndReadAt` (on a non-negative offset) and
`Delete` return `e` having made no further store call, and `FindMissing`
returns `e` and no list when that lookup is the first to fail; if
`Invalidate` fails with `e`, `Delete` returns `e`; if `Allocate` fails with
`e`, `Put` returns `e` with no DataStore write and no index entry; if the
DataStore write fails with `e`, `Put` returns `e` with no index entry; if
`OffsetStore.Put` fails with `e`, `Put` returns `e`. -/
theorem store_errors_propagate {δ ω κ τ : Type} (ba : circularBlobAccess δ ω κ τ)
    (s : Files ω κ τ) (digest : δ) (e : GoError) :
    ((ba.offsetStore.Get s.offsets digest (ba.stateStore.GetCursors s.state)).2.2.2 = some e →
      ((ba.Get s digest).err = some e ∧ (ba.Get s digest).reader = none ∧
        (ba.Get s digest).calls
          = [Call.GetCursors, Call.OffsetGet digest (ba.stateStore.GetCursors s.state)]) ∧
      (∀ (b : List Byte) (off : Int), 0 ≤ off →
        (ba.GetAndReadAt s digest b off).err = some e ∧
        (ba.GetAndReadAt s digest b off).n = 0 ∧
        (ba.GetAndReadAt s digest b off).buf = b ∧
        (ba.GetAndReadAt s digest b off).calls
          = [Call.GetCursors, Call.OffsetGet digest (ba.stateStore.GetCursors s.state)]) ∧
      ((ba.Delete s digest).err = some e ∧
        (ba.Delete s digest).calls
          = [Call.GetCursors, Call.OffsetGet digest (ba.stateStore.GetCursors s.state)]) ∧
      (∀ (pre post : List δ),
        (∀ x ∈ pre,
          (ba.offsetStore.Get s.offsets x (ba.stateStore.GetCursors s.state)).2.2.2 = none) →
        (ba.FindMissing s (pre ++ digest :: post)).err = some e ∧
        (ba.FindMissing s (pre ++ digest :: post)).missing = [])) ∧
    (∀ (o : Nat) (l : Int) (state1 : τ),
      ba.offsetStore.Get s.offsets digest (ba.stateStore.GetCursors s.state)
        = (o, l, true, none) →
      ba.stateStore.Invalidate s.state o l = (some e, state1) →
      (ba.Delete s digest).err = some e) ∧
    (∀ (sizeBytes : Int) (r : ReadCloser) (o : Nat) (state1 : τ),
      ba.stateStore.Allocate s.state sizeBytes = ((o, some e), state1) →
      (ba.Put s digest sizeBytes r).err = some e ∧
      (ba.Put s digest sizeBytes r).calls = [Call.Allocate sizeBytes] ∧
      (ba.Put s digest sizeBytes r).files.data = s.data ∧
      (ba.Put s digest sizeBytes r).files.offsets = s.offsets) ∧
    (∀ (sizeBytes : Int) (r : ReadCloser) (o : Nat) (state1 : τ) (data1 : κ) (reader1 : Reader),
      ba.stateStore.Allocate s.state sizeBytes = ((o, none), state1) →
      ba.dataStore.Put s.data r.reader o = (some e, data1, reader1) →
      (ba.Put s digest sizeBytes r).err = some e ∧
      (ba.Put s digest sizeBytes r).calls = [Call.Allocate sizeBytes, Call.DataPut o] ∧
      (ba.Put s digest sizeBytes r).files.offsets = s.offsets) ∧
    (∀ (sizeBytes : Int) (r : ReadCloser) (o : Nat) (state1 : τ) (data1 : κ) (reader1 : Reader)
      (offsets1 : ω),
      ba.stateStore.Allocate s.state sizeBytes = ((o, none), state1) →
      ba.dataStore.Put s.data r.reader o = (none, data1, reader1) →
      (ba.stateStore.GetCursors state1).Contains o sizeBytes = true →
      ba.offsetStore.Put s.offsets digest o sizeBytes (ba.stateStore.GetCursors state1)
        = (some e, offsets1) →
      (ba.Put s digest sizeBytes r).err = some e) := by
  refine ⟨?_, ?_, ?_, ?_, ?_⟩
  · intro hg
    rcases hl : ba.offsetStore.Get s.offsets digest (ba.stateStore.GetCursors s.state)
      with ⟨o, l, ok, err⟩
    have herr : err = some e := by
      rw [hl] at hg
      exact hg
    subst herr
    refine ⟨?_, ?_, ?_, ?_⟩
    · simp [circularBlobAccess.Get, hl]
    · intro b off hoff
      have hnot : ¬ off < 0 := by omega
      simp [circularBlobAccess.GetAndReadAt, hnot, hl]
    · simp [circularBlobAccess.Delete, hl]
    · intro pre post hpre
      have := findMissingLoop_fail ba s (ba.stateStore.GetCursors s.state) pre digest post e
        [] [Call.GetCursors] hpre hg
      simp [circularBlobAccess.FindMissing, this]
  · intro o l state1 hl hi
    simp [circularBlobAccess.Delete, hl, hi]
  · intro sizeBytes r o state1 ha
    simp [circularBlobAccess.Put, ha]
  · intro sizeBytes r o state1 data1 reader1 ha hw
    simp [circularBlobAccess.Put, ha, hw]
  · intro sizeBytes r o state1 data1 reader1 offsets1 ha hw hc hp
    simp [circularBlobAccess.Put, ha, hw, hc, hp]

/-- Witness for C9 on three broken stores: `Get` and `FindMissing` return the
error of the failing lookup, and `Put` returns the error of the failing
`Allocate`. -/
theorem store_errors_propagate_witness :
    ((brokenAccess (GoError.storeError 7)).Get ⟨(), (), ⟨0, 0⟩⟩ 1).err
      = some (GoError.storeError 7) ∧
    ((brokenAccess (GoError.storeError 7)).FindMissing ⟨(), (), ⟨0, 0⟩⟩ [1, 2]).missing
      = [] ∧
    ((brokenAccess (GoError.storeError 7)).Put ⟨(), (), ⟨0, 0⟩⟩ 1 1 (bytesReader [120])).err
      = some (GoError.storeError 7) :=
  have h := store_errors_propagate (brokenAccess (GoError.storeError 7)) ⟨(), (), ⟨0, 0⟩⟩ 1
    (GoError.storeError 7)
  ⟨(h.1 rfl).1.1, ((h.1 rfl).2.2.2 [] [2] (by decide)).2,
   (h.2.2.1 1 (bytesReader [120]) 0 ⟨0, 0⟩ rfl).1⟩

/-! ## Round trip -/

/-- A positioned write leaves alone every position it does not reach. -/
theorem ringWrite_other (C : Nat) (xs : List Byte) :
    ∀ (bytes : Nat → Byte) (offset p : Nat),
    (∀ i, i < xs.length → (offset + i) % C ≠ p) →
    ringWrite C bytes offset xs p = bytes p := by
  induction xs with
  | nil => intro bytes offset p _; rfl
  | cons x xs ih =>
    intro bytes offset p h
    have h0 : offset % C ≠ p := by
      have := h 0 (by simp)
      simpa using this
    have hrest : ∀ i, i < xs.length → (offset + 1 + i) % C ≠ p := by
      intro i hi
      have := h (i + 1) (by simp [hi])
      rwa [Nat.add_assoc, Nat.add_comm 1 i]
    rw [ringWrite, ih _ _ _ hrest, Function.update_noteq h0.symm]

/-- Reading one byte more: the first byte, then the rest. -/
theorem ringRead_succ (C : Nat) (bytes : Nat → Byte) (offset n : Nat) :
    ringRead C bytes offset (n + 1)
      = bytes (offset % C) :: ringRead C bytes (offset + 1) n := by
  simp only [ringRead, List.range_succ_eq_map, List.map_cons, List.map_map, Nat.add_zero]
  congr 1
  apply List.map_congr_left
  intro i _
  simp only [Function.comp_apply, Nat.succ_eq_add_one]
  rw [Nat.add_assoc, Nat.add_comm 1 i]

/-- In a byte array of capacity `C`, at most `C` bytes written at an offset
are read back from that offset. -/
theorem ringRead_ringWrite (C : Nat) (xs : List Byte) :
    ∀ (bytes : Nat → Byte) (offset : Nat), xs.length ≤ C →
    ringRead C (ringWrite C bytes offset xs) offset xs.length = xs := by
  induction xs with
  | nil => intro bytes offset _; rfl
  | cons x xs ih =>
    intro bytes offset hlen
    simp only [List.length_cons] at hlen
    rw [List.length_cons, ringRead_succ, ringWrite, ih _ _ (by omega)]
    congr 1
    rw [ringWrite_other]
    · simp
    · intro i hi heq
      have h1 : (offset + 1 + i) % C = (offset + 0) % C := by simpa using heq
      have h2 : Nat.ModEq C (offset + (1 + i)) (offset + 0) := by
        rw [← Nat.add_assoc]
        exact h1
      have h3 : Nat.ModEq C (1 + i) 0 := Nat.ModEq.add_left_cancel' offset h2
      have h4 : (1 + i) % C = 0 := by simpa [Nat.ModEq] using h3
      rw [Nat.mod_eq_of_lt (by omega)] at h4
      omega

/-- The in-memory DataStore of capacity `C` returns what was stored. -/
theorem memDataStore_returnsStored (C : Nat) : (memDataStore C).ReturnsStored C := by
  intro k k1 r r1 offset hput hfail hlen
  simp only [memDataStore, hfail, if_true, Prod.mk.injEq, true_and] at hput
  obtain ⟨hk, _⟩ := hput
  subst hk
  simp only [memDataStore, Int.toNat_ofNat, Reader.mk.injEq, and_true]
  exact ringRead_ringWrite C r.data k offset hlen

/-- The in-memory OffsetStore returns what was recorded when it is live. -/
theorem memOffsetStore_returnsRecorded {δ : Type} [DecidableEq δ] :
    (memOffsetStore : OffsetStore δ (List (δ × Nat × Int))).ReturnsRecorded := by
  intro w w1 digest offset length c c1 hput hlive
  simp only [memOffsetStore, Prod.mk.injEq, true_and] at hput
  subst hput
  simp [memOffsetStore, hlive]

/-- C1. Round trip of `Put` and `Get`. On stores that honour their contracts
(the OffsetStore returns what was recorded when it is live, the DataStore of
capacity `C` returns the bytes stored at an offset), if `Put` of a reader that
yields exactly the bytes `B`, with `sizeBytes` the length of `B` and at most
`C`, returns no error, then `Get` of the same digest right afterwards returns
no error, the length of `B` and a reader that yields exactly `B`. -/
theorem Put_Get_roundtrip {δ ω κ τ : Type} (ba : circularBlobAccess δ ω κ τ)
    (s : Files ω κ τ) (digest : δ) (r : ReadCloser) (C : Nat)
    (hos : ba.offsetStore.ReturnsRecorded) (hds : ba.dataStore.ReturnsStored C)
    (hr : r.reader.fail = GoError.EOF) (hlen : r.reader.data.length ≤ C)
    (hput : (ba.Put s digest (r.reader.data.length : Int) r).err = none) :
    (ba.Get (ba.Put s digest (r.reader.data.length : Int) r).files digest).err = none ∧
    (ba.Get (ba.Put s digest (r.reader.data.length : Int) r).files digest).length
      = (r.reader.data.length : Int) ∧
    (ba.Get (ba.Put s digest (r.reader.data.length : Int) r).files digest).reader
      = some ⟨r.reader.data, GoError.EOF⟩ := by
  rcases ha : ba.stateStore.Allocate s.state (r.reader.data.length : Int)
    with ⟨⟨o, aerr⟩, state1⟩
  cases aerr with
  | some e => simp [circularBlobAccess.Put, ha] at hput
  | none =>
    rcases hw : ba.dataStore.Put s.data r.reader o with ⟨werr, data1, reader1⟩
    cases werr with
    | some e => simp [circularBlobAccess.Put, ha, hw] at hput
    | none =>
      by_cases hc : (ba.stateStore.GetCursors state1).Contains o (r.reader.data.length : Int)
          = true
      · rcases hp : ba.offsetStore.Put s.offsets digest o (r.reader.data.length : Int)
          (ba.stateStore.GetCursors state1) with ⟨perr, offsets1⟩
        have hperr : perr = none := by
          simpa [circularBlobAccess.Put, ha, hw, hc, hp] using hput
        subst hperr
        have hfiles : (ba.Put s digest (r.reader.data.length : Int) r).files
            = ⟨offsets1, data1, state1⟩ := by
          simp [circularBlobAccess.Put, ha, hw, hc, hp]
        have hlook := hos _ _ _ _ _ _ (ba.stateStore.GetCursors state1) hp hc
        have hdata := hds _ _ _ _ _ hw hr hlen
        rw [hfiles]
        simp [circularBlobAccess.Get, hlook, hdata]
      · simp [circularBlobAccess.Put, ha, hw, hc] at hput

/-- Witness for C1: with capacity 16, `Put` of "abcdefgh" followed by `Get`
yields "abcdefgh". -/
theorem Put_Get_roundtrip_witness :
    (ring16.Get (ring16.Put memFiles 1 8 (bytesReader abcdefgh)).files 1).err = none ∧
    (ring16.Get (ring16.Put memFiles 1 8 (bytesReader abcdefgh)).files 1).length = 8 ∧
    (ring16.Get (ring16.Put memFiles 1 8 (bytesReader abcdefgh)).files 1).reader
      = some ⟨abcdefgh, GoError.EOF⟩ :=
  Put_Get_roundtrip ring16 memFiles 1 (bytesReader abcdefgh) 16 memOffsetStore_returnsRecorded
    (memDataStore_returnsStored 16) rfl (by decide) (by decide)

/-! ## `Delete` -/

/-- The in-memory StateStore retires what it invalidates. -/
theorem memStateStore_invalidateRetires (C : Nat) (reject : Bool) :
    (memStateStore C reject).InvalidateRetires := by
  intro t t1 offset sizeBytes hinv
  by_cases hc : t.Contains offset sizeBytes = true
  · simp only [memStateStore, hc, if_true, Prod.mk.injEq, true_and] at hinv
    subst hinv
    simp only [memStateStore, Cursors.Contains, decide_eq_false_iff_not, not_and]
    intro h
    omega
  · have hc1 : t.Contains offset sizeBytes = false := by simpa using hc
    simp only [memStateStore, hc1, Bool.false_eq_true, if_false, Prod.mk.injEq, true_and] at hinv
    subst hinv
    simpa [memStateStore] using hc1

/-- The in-memory OffsetStore couples lookup and liveness. -/
theorem memOffsetStore_livenessCoupled {δ : Type} [DecidableEq δ] :
    (memOffsetStore : OffsetStore δ (List (δ × Nat × Int))).LivenessCoupled := by
  intro w digest c c1 offset length hget hdead
  rcases hf : w.find? (fun e => decide (e.1 = digest)) with _ | ⟨d, o, l⟩
  · simp [memOffsetStore, hf]
  · simp only [memOffsetStore, hf] at hget
    by_cases hc : c.Contains o l = true
    · simp only [hc, if_true, Prod.mk.injEq, and_true] at hget
      obtain ⟨h1, h2⟩ := hget
      subst h1 h2
      simp [memOffsetStore, hf, hdead]
    · simp [hc] at hget

/-- C6 fails as stated. With capacity 16 and a StateStore whose `Invalidate`
is the minimal one, after `Put(1, "x")` and `Put(2, "y")` digest 2 has the
live range `[1, 2)`, which does not abut `read = 0`. `Delete(2)` forwards the
range to `Invalidate` and returns no error, the cursors stay `(0, 2)`, and
`Get(2)` still succeeds with "y" and `FindMissing([2])` is empty. -/
theorem Delete_Get_counterexample :
    (minimal16.Get filesXY 2).err = none ∧
    (minimal16.Delete filesXY 2).err = none ∧
    (minimal16.Delete filesXY 2).calls
      = [Call.GetCursors, Call.OffsetGet 2 ⟨0, 2⟩, Call.Invalidate 1 1] ∧
    (minimal16.Delete filesXY 2).files.state = ⟨0, 2⟩ ∧
    (minimal16.Get (minimal16.Delete filesXY 2).files 2).reader
      = some ⟨[121], GoError.EOF⟩ ∧
    (minimal16.FindMissing (minimal16.Delete filesXY 2).files [2]).missing = [] ∧
    ¬ ((minimal16.Get (minimal16.Delete filesXY 2).files 2).err
          = some (GoError.status Code.NotFound "Blob not found") ∧
       (minimal16.FindMissing (minimal16.Delete filesXY 2).files [2]).missing = [2]) := by
  refine ⟨by decide, by decide, by decide, by decide, by decide, by decide, ?_⟩
  decide

/-- C6, amended. For a digest with a live entry `(o, l)`, `Delete` does no
more than forward `(o, l)` to `StateStore.Invalidate`: it returns what
`Invalidate` returns and leaves the OffsetStore and the DataStore as they
were. On stores that honour their contracts (the StateStore retires what it
invalidates, the OffsetStore couples lookup and liveness), once `Delete` has
returned no error `Get` returns NotFound and `FindMissing` of that one digest
returns it. For a digest with no live entry `Delete` returns no error, does
not call `Invalidate` and leaves the stores as they were. -/
theorem Delete_spec {δ ω κ τ : Type} (ba : circularBlobAccess δ ω κ τ)
    (s : Files ω κ τ) (digest : δ) :
    (∀ (o : Nat) (l : Int),
      ba.offsetStore.Get s.offsets digest (ba.stateStore.GetCursors s.state)
        = (o, l, true, none) →
      (ba.Delete s digest).err = (ba.stateStore.Invalidate s.state o l).1 ∧
      (ba.Delete s digest).calls
        = [Call.GetCursors, Call.OffsetGet digest (ba.stateStore.GetCursors s.state),
           Call.Invalidate o l] ∧
      (ba.Delete s digest).files
        = ⟨s.offsets, s.data, (ba.stateStore.Invalidate s.state o l).2⟩) ∧
    (ba.stateStore.InvalidateRetires → ba.offsetStore.LivenessCoupled →
      ∀ (o : Nat) (l : Int),
      ba.offsetStore.Get s.offsets digest (ba.stateStore.GetCursors s.state)
        = (o, l, true, none) →
      (ba.Delete s digest).err = none →
      (ba.Get (ba.Delete s digest).files digest).err
        = some (GoError.status Code.NotFound "Blob not found") ∧
      (ba.FindMissing (ba.Delete s digest).files [digest]).missing = [digest] ∧
      (ba.FindMissing (ba.Delete s digest).files [digest]).err = none) ∧
    (∀ (o : Nat) (l : Int),
      ba.offsetStore.Get s.offsets digest (ba.stateStore.GetCursors s.state)
        = (o, l, false, none) →
      (ba.Delete s digest).err = none ∧
      (∀ c ∈ (ba.Delete s digest).calls, c.isInvalidate = false) ∧
      (ba.Delete s digest).files = s) := by
  refine ⟨?_, ?_, ?_⟩
  · intro o l hg
    simp [circularBlobAccess.Delete, hg]
  · intro hinv hcoup o l hg hdel
    rcases hi : ba.stateStore.Invalidate s.state o l with ⟨ierr, state1⟩
    have hierr : ierr = none := by
      simpa [circularBlobAccess.Delete, hg, hi] using hdel
    subst hierr
    have hfiles : (ba.Delete s digest).files = ⟨s.offsets, s.data, state1⟩ := by
      simp [circularBlobAccess.Delete, hg, hi]
    have hdead := hinv _ _ _ _ hi
    have hlook := hcoup _ _ _ (ba.stateStore.GetCursors state1) _ _ hg hdead
    rcases hg1 : ba.offsetStore.Get s.offsets digest (ba.stateStore.GetCursors state1)
      with ⟨o1, l1, ok1, err1⟩
    rw [hg1] at hlook
    simp only [Prod.mk.injEq] at hlook
    obtain ⟨h1, h2⟩ := hlook
    subst h1 h2
    rw [hfiles]
    simp [circularBlobAccess.Get, circularBlobAccess.FindMissing,
      circularBlobAccess.findMissingLoop, hg1, errNotFound]
  · intro o l hg
    simp [circularBlobAccess.Delete, hg, Call.isInvalidate]

/-- Witness for the amended C6: with capacity 16, after `Put(1, "x")` and `Delete(1)`,
`Get(1)` returns NotFound and `FindMissing([1])` returns `[1]`. -/
theorem Delete_spec_witness :
    (ring16.Get (ring16.Delete filesX 1).files 1).err
      = some (GoError.status Code.NotFound "Blob not found") ∧
    (ring16.FindMissing (ring16.Delete filesX 1).files [1]).missing = [1] ∧
    (ring16.FindMissing (ring16.Delete filesX 1).files [1]).err = none :=
  (Delete_spec ring16 filesX 1).2.1 (memStateStore_invalidateRetires 16 false)
    memOffsetStore_livenessCoupled 0 1 (by decide) (by decide)

end Buildbarn
